import Mathlib

/-!
Shallow embedding of the pi-automem session-to-memory extraction pipeline.

Sources:
- `scripts/compound-review.js` (batch path: discovery, ledger, parser,
  formatter, extractor response parsing, store loop, orchestrator)
- the pi extension source (live path: `extractConversationText`,
  `callGeminiForExtraction`, `storeExtractedMemories`)

JavaScript strings are modelled as `List Char`; the external JSON.parse
builtin is modelled by an executable recursive-descent parser over a `Json`
inductive; file and network effects are passed explicitly (ledger content as
a string, per-memory store outcomes as a boolean function, the model call as
an explicit outcome value).
-/

namespace AutoMem

/-- Whitespace recognised by JS `String.prototype.trim` (ASCII subset) and by
JSON.parse (space, tab, newline, carriage return; trim also strips form feed
and vertical tab). -/
def isJsWs (c : Char) : Bool :=
  c = ' ' || c = '\t' || c = '\n' || c = '\r' || c = '\x0c' || c = '\x0b'

/-- Model of JS `String.prototype.trim`. -/
def trim (s : List Char) : List Char :=
  ((s.dropWhile isJsWs).reverse.dropWhile isJsWs).reverse

/-- Model of JS `content.split("\n")`: split a character sequence at every
newline, keeping empty segments. -/
def splitLines : List Char → List (List Char)
  | [] => [[]]
  | c :: cs =>
    if c = '\n' then [] :: splitLines cs
    else
      match splitLines cs with
      | [] => [[c]]
      | l :: ls => (c :: l) :: ls

/-- Model of JS `name.endsWith(suffix)`. -/
def endsWith (s suffixStr : List Char) : Bool :=
  decide (s.reverse.take suffixStr.length = suffixStr.reverse)

/-! ## JSON values and a model of the `JSON.parse` builtin

`JSON.parse` is a JS runtime builtin, not repository code; it is modelled by
an executable parser for the JSON grammar.  Numbers are kept exactly as a
decimal mantissa/exponent pair (`m * 10 ^ e`), which is faithful for every
finite decimal literal. -/

inductive Json where
  | null : Json
  | bool (b : Bool) : Json
  | num (m : Int) (e : Int) : Json
  | str (s : List Char) : Json
  | arr (elems : List Json) : Json
  | obj (fields : List (List Char × Json)) : Json

def isHexDigit (c : Char) : Bool :=
  c.isDigit || ('a' ≤ c && c ≤ 'f') || ('A' ≤ c && c ≤ 'F')

def hexVal (c : Char) : Nat :=
  if c.isDigit then c.toNat - '0'.toNat
  else if 'a' ≤ c && c ≤ 'f' then c.toNat - 'a'.toNat + 10
  else c.toNat - 'A'.toNat + 10

/-- The single-character escape sequences JSON.parse accepts. -/
def simpleEscape (e : Char) : Option Char :=
  if e = '"' then some '"'
  else if e = '\\' then some '\\'
  else if e = '/' then some '/'
  else if e = 'b' then some '\x08'
  else if e = 'f' then some '\x0c'
  else if e = 'n' then some '\n'
  else if e = 'r' then some '\r'
  else if e = 't' then some '\t'
  else none

/-- Parse the remainder of a JSON string literal (after the opening quote),
handling the escape sequences JSON.parse accepts. -/
def parseStringRest : List Char → Option (List Char × List Char)
  | [] => none
  | '"' :: rest => some ([], rest)
  | '\\' :: 'u' :: h1 :: h2 :: h3 :: h4 :: rest =>
    if isHexDigit h1 && isHexDigit h2 && isHexDigit h3 && isHexDigit h4 then
      match parseStringRest rest with
      | none => none
      | some (cs, rem) =>
        some (Char.ofNat
          (((hexVal h1 * 16 + hexVal h2) * 16 + hexVal h3) * 16 + hexVal h4) :: cs, rem)
    else none
  | '\\' :: e :: rest =>
    match simpleEscape e with
    | none => none
    | some c =>
      match parseStringRest rest with
      | none => none
      | some (cs, rem) => some (c :: cs, rem)
  | c :: rest =>
    if c.toNat < 32 then none
    else
      match parseStringRest rest with
      | none => none
      | some (cs, rem) => some (c :: cs, rem)

def digitsToNat (ds : List Char) : Nat :=
  ds.foldl (fun acc c => acc * 10 + (c.toNat - '0'.toNat)) 0

/-- Parse a JSON number token per the JSON grammar
(`-? int frac? exp?`, where `int` is `0` or a nonzero-leading digit run),
returning its exact decimal value as mantissa and power-of-ten exponent. -/
def parseNumberTok (s : List Char) : Option (Json × List Char) :=
  let (neg, s1) := match s with
    | '-' :: r => (true, r)
    | _ => (false, s)
  let intDigits := s1.takeWhile Char.isDigit
  let s2 := s1.dropWhile Char.isDigit
  if intDigits = [] then none
  else if 2 ≤ intDigits.length && intDigits.headD '0' = '0' then none
  else
    let (fracDigits, s3) :=
      match s2 with
      | '.' :: r =>
        (r.takeWhile Char.isDigit, r.dropWhile Char.isDigit)
      | _ => ([], s2)
    if s2 ≠ s3 && fracDigits = [] then none
    else
      let hasExp := match s3 with
        | 'e' :: _ => true
        | 'E' :: _ => true
        | _ => false
      if hasExp then
        let s4 := s3.tail
        let (expNeg, s5) := match s4 with
          | '+' :: r => (false, r)
          | '-' :: r => (true, r)
          | _ => (false, s4)
        let expDigits := s5.takeWhile Char.isDigit
        let s6 := s5.dropWhile Char.isDigit
        if expDigits = [] then none
        else
          let m : Int := Int.ofNat (digitsToNat (intDigits ++ fracDigits))
          let ev : Int := (if expNeg then -(Int.ofNat (digitsToNat expDigits))
                           else Int.ofNat (digitsToNat expDigits)) - fracDigits.length
          some (Json.num (if neg then -m else m) ev, s6)
      else
        let m : Int := Int.ofNat (digitsToNat (intDigits ++ fracDigits))
        some (Json.num (if neg then -m else m) (-(fracDigits.length : Int)), s3)

/-- JSON insignificant whitespace. -/
def isJsonWs (c : Char) : Bool :=
  c = ' ' || c = '\t' || c = '\n' || c = '\r'

def skipWs (s : List Char) : List Char :=
  s.dropWhile isJsonWs

mutual

/-- Parse one JSON value.  The fuel argument only bounds recursion depth; the
top-level entry point supplies more fuel than any input can consume. -/
def parseVal : Nat → List Char → Option (Json × List Char)
  | 0, _ => none
  | fuel + 1, s =>
    match skipWs s with
    | 'n' :: 'u' :: 'l' :: 'l' :: rest => some (Json.null, rest)
    | 't' :: 'r' :: 'u' :: 'e' :: rest => some (Json.bool true, rest)
    | 'f' :: 'a' :: 'l' :: 's' :: 'e' :: rest => some (Json.bool false, rest)
    | '"' :: rest =>
      match parseStringRest rest with
      | none => none
      | some (cs, rem) => some (Json.str cs, rem)
    | '[' :: rest =>
      (match skipWs rest with
       | ']' :: rem => some (Json.arr [], rem)
       | _ =>
         match parseElems fuel rest with
         | none => none
         | some (es, rem) => some (Json.arr es, rem))
    | '{' :: rest =>
      (match skipWs rest with
       | '}' :: rem => some (Json.obj [], rem)
       | _ =>
         match parseFields fuel rest with
         | none => none
         | some (fs, rem) => some (Json.obj fs, rem))
    | c :: rest =>
      if c = '-' || c.isDigit then parseNumberTok (c :: rest) else none
    | [] => none

/-- Parse a nonempty comma-separated list of values followed by `]`. -/
def parseElems : Nat → List Char → Option (List Json × List Char)
  | 0, _ => none
  | fuel + 1, s =>
    match parseVal fuel s with
    | none => none
    | some (v, rest) =>
      match skipWs rest with
      | ',' :: rest' =>
        (match parseElems fuel rest' with
         | none => none
         | some (vs, rem) => some (v :: vs, rem))
      | ']' :: rem => some ([v], rem)
      | _ => none

/-- Parse a nonempty comma-separated list of `"key": value` pairs followed
by `}`. -/
def parseFields : Nat → List Char → Option (List (List Char × Json) × List Char)
  | 0, _ => none
  | fuel + 1, s =>
    match skipWs s with
    | '"' :: rest =>
      (match parseStringRest rest with
       | none => none
       | some (k, rest') =>
         match skipWs rest' with
         | ':' :: rest'' =>
           (match parseVal fuel rest'' with
            | none => none
            | some (v, rest''') =>
              match skipWs rest''' with
              | ',' :: more =>
                (match parseFields fuel more with
                 | none => none
                 | some (fs, rem) => some ((k, v) :: fs, rem))
              | '}' :: rem => some ([(k, v)], rem)
              | _ => none)
         | _ => none)
    | _ => none

end

/-- Model of the `JSON.parse` builtin: parse a complete JSON document,
rejecting trailing garbage (as JSON.parse does).  `none` models a thrown
`SyntaxError`.  The fuel `2 * length + 8` exceeds the recursion depth any
input of this length can force. -/
def parseJson (s : List Char) : Option Json :=
  match parseVal (2 * s.length + 8) s with
  | none => none
  | some (v, rest) => if skipWs rest = [] then some v else none

/-- JS property access `j.k` on a parsed JSON value: present only on objects;
JSON.parse keeps the last occurrence of a duplicated key. -/
def Json.getField : Json → List Char → Option Json
  | Json.obj fs, k => (fs.reverse.find? (fun p => decide (p.1 = k))).map (·.2)
  | _, _ => none

/-- JS truthiness of a JSON.parse result. -/
def jsTruthy : Json → Bool
  | Json.null => false
  | Json.bool b => b
  | Json.num m _ => decide (m ≠ 0)
  | Json.str s => decide (s ≠ [])
  | Json.arr _ => true
  | Json.obj _ => true

def natDigitChars (n : Nat) : List Char :=
  Nat.toDigits 10 n

/-- Decimal rendering of a mantissa/exponent number, modelling JS string
coercion of a number (exercised only by degenerate transcripts whose text
blocks are non-strings). -/
def numToChars (m : Int) (e : Int) : List Char :=
  let sign : List Char := if m < 0 then ['-'] else []
  let n := m.natAbs
  if 0 ≤ e then
    sign ++ natDigitChars (n * 10 ^ e.toNat)
  else
    let k := (-e).toNat
    let ds := natDigitChars n
    let ds := if ds.length ≤ k then List.replicate (k + 1 - ds.length) '0' ++ ds else ds
    sign ++ ds.take (ds.length - k) ++ ['.'] ++ ds.drop (ds.length - k)

/-- JS string coercion of a JSON value (template literal / `Array.join`). -/
def jsToChars : Json → List Char
  | Json.null => "null".data
  | Json.bool b => if b then "true".data else "false".data
  | Json.num m e => numToChars m e
  | Json.str s => s
  | Json.arr _ => "".data
  | Json.obj _ => "[object Object]".data

/-! ## Idempotency ledger (`compound-review.js` lines 58-68)

The ledger file's content is passed explicitly as a character sequence;
absence of the file is the empty content. -/

/-- Model of `getProcessedSessions`: `content.split("\n").filter(Boolean)`, the set of
already-processed session paths (set membership is exact string match). -/
def getProcessedSessions (content : List Char) : List (List Char) :=
  (splitLines content).filter (fun l => decide (l ≠ []))

/-- Model of `markSessionProcessed`: append `sessionPath + "\n"` to the ledger file,
skipped entirely in dry-run mode. -/
def markSessionProcessed (dryRun : Bool) (content sessionPath : List Char) : List Char :=
  if dryRun then content else content ++ sessionPath ++ ['\n']

/-! ## Session discovery (`findRecentSessions`, lines 73-102)

The directory tree is passed explicitly; a directory whose `readable` flag is
false models one whose `readdirSync` throws (the `try`/`catch` then skips the
whole subtree). -/

structure Session where
  path : List Char
  mtime : Int

structure Totals where
  memories : Nat
  stored : Nat

inductive FsNode where
  | file (name : List Char) (mtime : Int) : FsNode
  | dir (name : List Char) (readable : Bool) (children : List FsNode) : FsNode

/-- Model of `join(dir, entry.name)`. -/
def joinPath (dir name : List Char) : List Char :=
  dir ++ ['/'] ++ name

/-- The body of `scanDir` over the entries of one readable directory:
recurse into subdirectories other than `subagent-artifacts` (an unreadable
one contributes nothing), collect `.jsonl` files with `mtimeMs >= cutoff`.
(The source's `else if` branch cannot fire for a directory named exactly
`subagent-artifacts`, whose name does not end in `.jsonl`.) -/
def scanNodes (cutoff : Int) : List Char → List FsNode → List Session
  | _, [] => []
  | dirPath, FsNode.dir name readable children :: rest =>
    (if name ≠ "subagent-artifacts".data then
      (if readable then scanNodes cutoff (joinPath dirPath name) children else [])
    else []) ++ scanNodes cutoff dirPath rest
  | dirPath, FsNode.file name mtime :: rest =>
    (if endsWith name ".jsonl".data then
      (if cutoff ≤ mtime then [⟨joinPath dirPath name, mtime⟩] else [])
    else []) ++ scanNodes cutoff dirPath rest

/-- Model of `findRecentSessions(baseDir, hoursAgo)`: cutoff is
`Date.now() - hoursAgo * 60 * 60 * 1000`; files are kept when
`stat.mtimeMs >= cutoff` and sorted by `(a, b) => b.mtime - a.mtime`
(stable, most-recently-modified first). -/
def findRecentSessions (now : Int) (baseDir : List Char) (root : List FsNode)
    (hoursAgo : Int) : List Session :=
  let cutoff := now - hoursAgo * 60 * 60 * 1000
  (scanNodes cutoff baseDir root).mergeSort (fun a b => decide (b.mtime ≤ a.mtime))

/-! ## Parser (`parseSession`, lines 107-144) -/

inductive Role where
  | user : Role
  | assistant : Role
deriving DecidableEq

structure ConvEntry where
  role : Role
  text : List Char
deriving DecidableEq

/-- The text-extraction block of `parseSession` / `extractConversationText`:
a string content is taken as is; an array keeps `text`-typed blocks with a
truthy `text` field, string-coerces each and joins with a newline; anything
else yields the empty text. -/
def extractMsgText : Option Json → List Char
  | some (Json.str s) => s
  | some (Json.arr blocks) =>
    List.intercalate ['\n']
      ((blocks.filter (fun c =>
        match c.getField "type".data with
        | some (Json.str t) =>
          decide (t = "text".data) &&
            (match c.getField "text".data with
             | some v => jsTruthy v
             | none => false)
        | _ => false)).map (fun c =>
          match c.getField "text".data with
          | some v => jsToChars v
          | none => "undefined".data))
  | _ => []

/-- One iteration of the `parseSession` loop up to the push point: JSON.parse
the line (a failure is skipped), require a `message`-typed record with a
truthy `message` field, extract the text, and require nonempty trimmed text
and a `user`/`assistant` role.  Returns the role and the *untruncated*
text. -/
def lineCandidate (line : List Char) : Option (Role × List Char) :=
  match parseJson line with
  | none => none
  | some entry =>
    match entry.getField "type".data, entry.getField "message".data with
    | some (Json.str ty), some msg =>
      if ty = "message".data ∧ jsTruthy msg then
        let text := extractMsgText (msg.getField "content".data)
        match msg.getField "role".data with
        | some (Json.str role) =>
          if trim text ≠ [] ∧ (role = "user".data ∨ role = "assistant".data) then
            some (if role = "user".data then Role.user else Role.assistant, text)
          else none
        | _ => none
      else none
    | _, _ => none

/-- The entry actually pushed: the candidate with its text truncated by
`text.slice(0, 2000)`. -/
def processLine (line : List Char) : Option ConvEntry :=
  (lineCandidate line).map (fun rc => ⟨rc.1, rc.2.take 2000⟩)

/-- Model of `parseSession` on a transcript file content: split into lines, drop
empty ones (`filter(Boolean)`), push one entry per accepted line;
`turnCount` is incremented exactly when a `user` entry is pushed, so it
equals the number of `user` entries. -/
def parseSession (content : List Char) : List ConvEntry × Nat :=
  let entries := ((splitLines content).filter (fun l => decide (l ≠ []))).filterMap processLine
  (entries, (entries.filter (fun e => decide (e.role = Role.user))).length)

/-! ## Formatter (`formatConversation`, lines 149-153) -/

def roleUpper : Role → List Char
  | Role.user => "USER".data
  | Role.assistant => "ASSISTANT".data

/-- Model of `entries.map(e => ROLE-prefixed text).join("\n\n")`. -/
def formatConversation (entries : List ConvEntry) : List Char :=
  List.intercalate "\n\n".data
    (entries.map (fun e => roleUpper e.role ++ ": ".data ++ e.text))

/-! ## Live path (`extractConversationText`, extension lines 108-148) -/

structure LiveEntry where
  type : List Char
  data : Option Json

/-- One iteration of the `extractConversationText` loop: require a truthy
`message` record, truthy `role` and `content`, nonempty trimmed text; a
`user` role pushes `USER: <text>` untruncated and counts a turn; an
`assistant` role pushes `ASSISTANT: <text>` with the text truncated to
`slice(0, 2000) + "..."` when longer than 2000; other roles push nothing. -/
def liveProcessEntry (e : LiveEntry) : Option (List Char × Bool) :=
  if e.type = "message".data then
    match e.data with
    | some msg =>
      if jsTruthy msg then
        match msg.getField "role".data, msg.getField "content".data with
        | some roleV, some contentV =>
          if jsTruthy roleV ∧ jsTruthy contentV then
            let text := extractMsgText (some contentV)
            if trim text = [] then none
            else
              match roleV with
              | Json.str r =>
                if r = "user".data then some ("USER: ".data ++ text, true)
                else if r = "assistant".data then
                  some ("ASSISTANT: ".data ++
                    (if 2000 < text.length then text.take 2000 ++ "...".data else text),
                    false)
                else none
              | _ => none
          else none
        | _, _ => none
      else none
    | none => none
  else none

/-- The pushed lines of `extractConversationText`, each tagged with whether
it was a user turn. -/
def liveLines (entries : List LiveEntry) : List (List Char × Bool) :=
  entries.filterMap liveProcessEntry

/-- The lines pushed by `extractConversationText`, in order. -/
def buildLines (entries : List LiveEntry) : List (List Char) :=
  (liveLines entries).map (·.1)

/-- Model of `extractConversationText`: the joined text and the user-turn count. -/
def extractConversationText (entries : List LiveEntry) : List Char × Nat :=
  (List.intercalate "\n\n".data (buildLines entries),
   ((liveLines entries).filter (·.2)).length)

/-! ## Extractor response parsing

Batch path: `extractMemories` (`compound-review.js` lines 158-215).
Live path: `callGeminiForExtraction` (extension lines 206-221). -/

/-- Model of the replace of a leading fence marker, applied when the text starts
with a fence: drop the backticks, an optional `json` tag and an optional
newline. -/
def stripLeadingFence (s : List Char) : List Char :=
  let s1 := s.drop 3
  let s2 := if s1.take 4 = "json".data then s1.drop 4 else s1
  match s2 with
  | '\n' :: r => r
  | _ => s2

/-- Model of the replace of a trailing fence marker: drop it together with a
newline directly before it, when present. -/
def stripTrailingFence (s : List Char) : List Char :=
  if s.reverse.take 3 = "```".data then
    let t := s.take (s.length - 3)
    match t.reverse with
    | '\n' :: _ => t.take (t.length - 1)
    | _ => t
  else s

/-- The fence-handling block shared verbatim by both paths:
`if (jsonText.startsWith("```")) { strip leading; strip trailing }`. -/
def stripFences (s : List Char) : List Char :=
  if s.take 3 = "```".data then stripTrailingFence (stripLeadingFence s) else s

/-- Model of the array scan regex match: the greedy scan matches from the first
`[` through the last `]` of the text, when the last `]` lies after the first
`[`; otherwise there is no match. -/
def matchJsonArraySub (s : List Char) : Option (List Char) :=
  let t := s.dropWhile (fun c => decide (c ≠ '['))
  let u := (t.reverse.dropWhile (fun c => decide (c ≠ ']'))).reverse
  if u = [] then none else some u

/-- The response-parsing stage of the batch `extractMemories` (lines
193-206), together with the surrounding `catch`: trim, strip fences, scan
for an array substring (`none` → return `[]`), JSON.parse it, and return the
parsed array (a non-array parse returns `[]`).  A JSON.parse failure throws
a `SyntaxError`, which the `catch` rethrows (its `e.killed` test only
converts subprocess timeouts), so it is an error, not an empty result. -/
def parseExtractionResponse (stdout : List Char) : Except (List Char) (List Json) :=
  let jsonText := stripFences (trim stdout)
  match matchJsonArraySub jsonText with
  | none => Except.ok []
  | some sub =>
    match parseJson sub with
    | some (Json.arr ms) => Except.ok ms
    | some _ => Except.ok []
    | none => Except.error "SyntaxError: JSON parse failed".data

/-- The response-parsing stage of the live `callGeminiForExtraction` (lines
209-216): trim, strip fences, JSON.parse the whole text; the surrounding
`try`/`catch` turns a parse failure into `[]`, and a non-array parse also
yields `[]`.  Total by construction: it never raises. -/
def parseGeminiResponse (text : List Char) : List Json :=
  let jsonText := stripFences (trim text)
  match parseJson jsonText with
  | some (Json.arr ms) => ms
  | some _ => []
  | none => []

/-- Outcome of the external `execSync("pi ...")` call of the batch
extractor: a timeout kill, another subprocess failure, or captured
stdout. -/
inductive CallOutcome where
  | timeout : CallOutcome
  | failed (msg : List Char) : CallOutcome
  | output (stdout : List Char) : CallOutcome

/-- The batch `extractMemories` given the subprocess outcome: a killed call
becomes the named `Extraction timed out after 90s` error, another subprocess
failure is rethrown, and stdout goes through the response-parsing stage. -/
def extractMemories (call : CallOutcome) : Except (List Char) (List Json) :=
  match call with
  | CallOutcome.timeout => Except.error "Extraction timed out after 90s".data
  | CallOutcome.failed m => Except.error m
  | CallOutcome.output o => parseExtractionResponse o

/-- The batch extractor on a conversation: the prompt embeds
`conversationText.slice(0, 15000)`; `call` gives the subprocess outcome as a
function of that truncated conversation. -/
def extractMemoriesRun (call : List Char → CallOutcome) (conversationText : List Char) :
    Except (List Char) (List Json) :=
  extractMemories (call (conversationText.take 15000))

/-! ## Store client and orchestrator (`processSession` lines 250-293,
`main` lines 327-363) -/

/-- The per-memory store loop of `processSession` (lines 279-292): one
`storeMemory` call per memory; a success increments `stored`, a thrown
error or non-2xx failure is caught and increments `failed`.  `ok i` says
whether the store call for the `i`-th memory succeeds. -/
def storeLoop (ok : Nat → Bool) (memories : List Json) : Nat × Nat :=
  let rec go : Nat → Nat → Nat → List Json → Nat × Nat
    | _, stored, failed, [] => (stored, failed)
    | i, stored, failed, _ :: rest =>
      if ok i then go (i + 1) (stored + 1) failed rest
      else go (i + 1) stored (failed + 1) rest
  go 0 0 0 memories

/-- The live `storeExtractedMemories` (extension lines 226-265): the same
per-memory loop, where a non-ok response or a thrown request both increment
`failed`. -/
def storeExtractedMemories (ok : Nat → Bool) (memories : List Json) : Nat × Nat :=
  let rec go : Nat → Nat → Nat → List Json → Nat × Nat
    | _, stored, failed, [] => (stored, failed)
    | i, stored, failed, _ :: rest =>
      if ok i then go (i + 1) (stored + 1) failed rest
      else go (i + 1) stored (failed + 1) rest
  go 0 0 0 memories

/-- The session result shapes of `processSession`, unified: `skipped` is the
`{skipped: true}` return; `memories`/`stored`/`failed` default to 0 where
the source result object omits them (`result.memories || 0`);
`storeCalls` records how many `storeMemory` calls were issued. -/
structure PSResult where
  skipped : Bool
  memories : Nat
  stored : Nat
  failed : Nat
  storeCalls : Nat
deriving DecidableEq

/-- Model of `processSession(sessionPath)` on the session file content: parse,
gate on `turnCount < 3`, format, extract (an extraction error propagates),
return early on zero memories, preview only under `--dry-run`, otherwise
run the store loop. -/
def processSession (dryRun : Bool) (call : List Char → CallOutcome)
    (storeOk : Nat → Bool) (content : List Char) : Except (List Char) PSResult :=
  let parsed := parseSession content
  if parsed.2 < 3 then Except.ok ⟨true, 0, 0, 0, 0⟩
  else
    let conversationText := formatConversation parsed.1
    match extractMemoriesRun call conversationText with
    | Except.error e => Except.error e
    | Except.ok memories =>
      if memories.length = 0 then Except.ok ⟨false, 0, 0, 0, 0⟩
      else if dryRun then Except.ok ⟨false, memories.length, 0, 0, 0⟩
      else
        let sf := storeLoop storeOk memories
        Except.ok ⟨false, memories.length, sf.1, sf.2, memories.length⟩

/-- The session-selection step of `main` (lines 327-335): `--session <path>`
replaces discovery by the one named session (its `mtime` is never read
downstream; 0 is a placeholder). -/
def selectSessions (specificSession : Option (List Char)) (discovered : List Session) :
    List Session :=
  match specificSession with
  | some p => [⟨p, 0⟩]
  | none => discovered

/-- The ledger filter of `main` (lines 337-339):
`sessions.filter(s => !processed.has(s.path))`. -/
def filterUnprocessed (ledger : List Char) (sessions : List Session) : List Session :=
  sessions.filter (fun s => decide (s.path ∉ getProcessedSessions ledger))

/-- One iteration of the `main` processing loop (lines 351-363): a session
whose `processSession` resolves un-skipped adds to the totals and is marked
in the ledger; a skipped one changes nothing; a thrown error is caught and
logged, and the loop continues with the state unchanged. -/
def mainStep (dryRun : Bool) (call : List Char → CallOutcome)
    (storeOk : List Char → Nat → Bool) (fs : List Char → List Char)
    (st : List Char × Totals) (s : Session) : List Char × Totals :=
  match processSession dryRun call (storeOk s.path) (fs s.path) with
  | Except.ok r =>
    if r.skipped = false then
      (markSessionProcessed dryRun st.1 s.path,
       ⟨st.2.memories + r.memories, st.2.stored + r.stored⟩)
    else st
  | Except.error _ => st

/-- The `main` processing loop over the filtered sessions. -/
def runSessions (dryRun : Bool) (call : List Char → CallOutcome)
    (storeOk : List Char → Nat → Bool) (fs : List Char → List Char)
    (st : List Char × Totals) (sessions : List Session) : List Char × Totals :=
  sessions.foldl (mainStep dryRun call storeOk fs) st

/-- A sequence of `markSessionProcessed` writes (the ledger appends done by
any number of further processed sessions or runs). -/
def applyMarks (ledger : List Char) (paths : List (List Char)) : List Char :=
  paths.foldl (markSessionProcessed false) ledger

/-- A well-formed ledger file: empty, or ending in a newline.  Every ledger
produced by `markSessionProcessed` writes alone has this shape. -/
def LedgerWf (content : List Char) : Prop :=
  content = [] ∨ content.getLast? = some '\n'

/-- Modelled from the spec: the spec's structural validity of an
`ExtractedMemory` candidate (a non-empty `content` string and a numeric
`importance`), stated only to compare the spec's claim with what the code
returns; no such check exists in the source. -/
def specValidExtractedMemory (j : Json) : Bool :=
  (match j.getField "content".data with
   | some (Json.str s) => decide (s ≠ [])
   | _ => false) &&
  (match j.getField "importance".data with
   | some (Json.num _ _) => true
   | _ => false)

/-! ## Lemmas about line splitting and the ledger -/

theorem splitLines_ne_nil (s : List Char) : splitLines s ≠ [] := by
  cases s with
  | nil => simp [splitLines]
  | cons c cs =>
    simp only [splitLines]
    split
    · simp
    · split <;> simp

theorem splitLines_append_newline (M X : List Char) :
    splitLines (M ++ '\n' :: X) = splitLines M ++ splitLines X := by
  induction M with
  | nil => simp [splitLines]
  | cons c M ih =>
    by_cases hc : c = '\n'
    · subst hc
      show splitLines ('\n' :: (M ++ '\n' :: X)) = splitLines ('\n' :: M) ++ splitLines X
      simp [splitLines, ih]
    · show splitLines (c :: (M ++ '\n' :: X)) = splitLines (c :: M) ++ splitLines X
      cases h : splitLines M with
      | nil => exact absurd h (splitLines_ne_nil M)
      | cons l ls =>
        simp only [splitLines, if_neg hc, ih, h, List.cons_append]

theorem splitLines_no_newline (p : List Char) (h : '\n' ∉ p) : splitLines p = [p] := by
  induction p with
  | nil => rfl
  | cons c cs ih =>
    have hc : c ≠ '\n' := fun e => h (e ▸ List.mem_cons_self c cs)
    have hrest := ih (fun hm => h (List.mem_cons_of_mem _ hm))
    simp [splitLines, hc, hrest]

theorem ledgerWf_decomp {L : List Char} (hwf : LedgerWf L) :
    L = [] ∨ ∃ M, L = M ++ ['\n'] := by
  rcases hwf with h | h
  · exact Or.inl h
  · right
    have hne : L ≠ [] := by
      intro e; rw [e] at h; simp at h
    refine ⟨L.dropLast, ?_⟩
    have := List.dropLast_append_getLast hne
    rw [List.getLast?_eq_getLast L hne] at h
    have hl : L.getLast hne = '\n' := Option.some.inj h
    rw [hl] at this
    exact this.symm

theorem getProcessedSessions_append (L X : List Char) (hwf : LedgerWf L) :
    getProcessedSessions (L ++ X) =
      getProcessedSessions L ++ getProcessedSessions X := by
  rcases ledgerWf_decomp hwf with rfl | ⟨M, rfl⟩
  · simp [getProcessedSessions, splitLines]
  · have h1 : M ++ ['\n'] ++ X = M ++ '\n' :: X := by simp
    have h2 : M ++ ['\n'] = M ++ '\n' :: ([] : List Char) := by simp
    rw [h1, h2]
    unfold getProcessedSessions
    rw [splitLines_append_newline, splitLines_append_newline]
    simp [splitLines, List.filter_append]

theorem ledgerWf_mark (L p : List Char) :
    LedgerWf (markSessionProcessed false L p) := by
  right
  show ((L ++ p) ++ ['\n']).getLast? = some '\n'
  exact List.getLast?_concat _

theorem mem_getProcessedSessions_mark (L p : List Char) (hwf : LedgerWf L)
    (hp : p ≠ []) (hn : '\n' ∉ p) :
    p ∈ getProcessedSessions (markSessionProcessed false L p) := by
  show p ∈ getProcessedSessions (L ++ p ++ ['\n'])
  rw [List.append_assoc, getProcessedSessions_append L (p ++ ['\n']) hwf]
  have h2 : p ++ ['\n'] = p ++ '\n' :: ([] : List Char) := by simp
  have : getProcessedSessions (p ++ ['\n']) = [p] := by
    rw [h2]
    unfold getProcessedSessions
    rw [splitLines_append_newline, splitLines_no_newline p hn]
    simp [splitLines, hp]
  rw [this]
  simp

theorem getProcessedSessions_mark_mono (L p q : List Char) (hwf : LedgerWf L)
    (hq : q ∈ getProcessedSessions L) :
    q ∈ getProcessedSessions (markSessionProcessed false L p) := by
  show q ∈ getProcessedSessions (L ++ p ++ ['\n'])
  rw [List.append_assoc, getProcessedSessions_append L (p ++ ['\n']) hwf]
  exact List.mem_append_left _ hq

theorem ledgerWf_applyMarks (L : List Char) (ps : List (List Char)) (hwf : LedgerWf L) :
    LedgerWf (applyMarks L ps) := by
  induction ps generalizing L with
  | nil => exact hwf
  | cons p ps ih =>
    show LedgerWf (applyMarks (markSessionProcessed false L p) ps)
    exact ih _ (ledgerWf_mark L p)

theorem mem_getProcessedSessions_applyMarks (L q : List Char) (ps : List (List Char))
    (hwf : LedgerWf L) (hq : q ∈ getProcessedSessions L) :
    q ∈ getProcessedSessions (applyMarks L ps) := by
  induction ps generalizing L with
  | nil => exact hq
  | cons p ps ih =>
    show q ∈ getProcessedSessions (applyMarks (markSessionProcessed false L p) ps)
    exact ih _ (ledgerWf_mark L p) (getProcessedSessions_mark_mono L p q hwf hq)

/-! ## Claim theorems -/

/-- C1: once a session's path has been appended to the ledger by a non-dry-run
batch run (`markSessionProcessed`), every subsequent batch run — whatever
further marks have been appended before or after — filters that session out
of its work list, so the session is skipped and its memories are not stored
again. -/
theorem c1_ledger_idempotency (L : List Char) (pre post : List (List Char))
    (p : List Char) (hwf : LedgerWf L) (hp : p ≠ []) (hn : '\n' ∉ p)
    (discovered : List Session) :
    (filterUnprocessed
        (applyMarks (markSessionProcessed false (applyMarks L pre) p) post)
        discovered).all (fun s => decide (s.path ≠ p)) = true := by
  have hwf1 : LedgerWf (applyMarks L pre) := ledgerWf_applyMarks L pre hwf
  have hmem : p ∈ getProcessedSessions (markSessionProcessed false (applyMarks L pre) p) :=
    mem_getProcessedSessions_mark _ p hwf1 hp hn
  have hmem2 : p ∈ getProcessedSessions
      (applyMarks (markSessionProcessed false (applyMarks L pre) p) post) :=
    mem_getProcessedSessions_applyMarks _ p post (ledgerWf_mark _ p) hmem
  rw [List.all_eq_true]
  intro s hs
  unfold filterUnprocessed at hs
  have hnotin := of_decide_eq_true (List.mem_filter.mp hs).2
  exact decide_eq_true (fun hep => hnotin (hep ▸ hmem2))

/-- Witness for C1 at a concrete ledger history: path `p` marked, then `q`
marked later; a discovery list containing `p` is filtered so no remaining
session has path `p`. -/
theorem c1_ledger_idempotency_witness :
    LedgerWf [] ∧ "p".data ≠ [] ∧ '\n' ∉ "p".data ∧
    (filterUnprocessed
        (applyMarks (markSessionProcessed false (applyMarks [] []) "p".data) ["q".data])
        [⟨"p".data, 0⟩, ⟨"r".data, 0⟩]).all (fun s => decide (s.path ≠ "p".data)) = true :=
  ⟨Or.inl rfl, by decide, by decide,
    c1_ledger_idempotency [] [] ["q".data] "p".data (Or.inl rfl) (by decide) (by decide)
      [⟨"p".data, 0⟩, ⟨"r".data, 0⟩]⟩

/-- C2 counterexample: with `--session /s/a.jsonl` and that very path already
in the ledger, discovery is indeed bypassed, but the ledger filter of `main`
(line 339) applies to the named session too: the work list is empty, so the
session is NOT processed — contradicting the claim that the ledger filter is
bypassed. -/
theorem c2_counterexample :
    selectSessions (some "/s/a.jsonl".data) [⟨"/s/b.jsonl".data, 5⟩] =
      [⟨"/s/a.jsonl".data, 0⟩] ∧
    filterUnprocessed "/s/a.jsonl\n".data
      (selectSessions (some "/s/a.jsonl".data) [⟨"/s/b.jsonl".data, 5⟩]) = [] :=
  ⟨rfl, rfl⟩

/-- C2 amended: `--session <path>` bypasses directory discovery (the work
list is exactly the named session, whatever was discoverable), but NOT the
ledger filter: the named session is processed only when its path is not in
the ledger, and is skipped when it is. -/
theorem c2_session_flag (p : List Char) (discovered : List Session)
    (ledger : List Char) :
    selectSessions (some p) discovered = [⟨p, 0⟩] ∧
    filterUnprocessed ledger (selectSessions (some p) discovered) =
      (if p ∈ getProcessedSessions ledger then [] else [⟨p, 0⟩]) := by
  refine ⟨rfl, ?_⟩
  by_cases h : p ∈ getProcessedSessions ledger
  · simp [filterUnprocessed, selectSessions, List.filter, h]
  · simp [filterUnprocessed, selectSessions, List.filter, h]

/-- C3 counterexample: the batch parsing stage is NOT total.  On the raw
response `[oops]` the array scan matches `[oops]`, `JSON.parse` fails on it,
and the `catch` rethrows (only `e.killed` is converted), so extraction
raises instead of returning an empty sequence. -/
theorem c3_counterexample :
    parseExtractionResponse "[oops]".data =
      Except.error "SyntaxError: JSON parse failed".data := rfl

/-- C3 amended: the live-path parsing stage is total and returns `[]` on any
parse failure; the batch-path stage returns `[]` when no array substring is
found (in particular on `not json`), but a `JSON.parse` failure on a matched
array substring propagates as an exception.  Both paths yield `[]` on the
response `not json`. -/
theorem c3_extraction_parse (s : List Char) :
    (matchJsonArraySub (stripFences (trim s)) = none →
      parseExtractionResponse s = Except.ok []) ∧
    (parseJson (stripFences (trim s)) = none → parseGeminiResponse s = []) ∧
    parseExtractionResponse "not json".data = Except.ok [] ∧
    parseGeminiResponse "not json".data = [] := by
  refine ⟨?_, ?_, rfl, rfl⟩
  · intro h
    simp only [parseExtractionResponse, h]
  · intro h
    simp only [parseGeminiResponse, h]

/-- Witness for C3 at the concrete response `hello`: no array substring, no
parse, both paths return the empty sequence. -/
theorem c3_extraction_parse_witness :
    (matchJsonArraySub (stripFences (trim "hello".data)) = none ∧
      parseExtractionResponse "hello".data = Except.ok []) ∧
    (parseJson (stripFences (trim "hello".data)) = none ∧
      parseGeminiResponse "hello".data = []) :=
  ⟨⟨rfl, (c3_extraction_parse "hello".data).1 rfl⟩,
   ⟨rfl, (c3_extraction_parse "hello".data).2.1 rfl⟩⟩

/-- C4 counterexample: an array element with no `content` field at all is NOT
dropped: both extractors return it as-is (the source only checks
`Array.isArray` and performs no per-element validation), so the result is
not limited to structurally valid ExtractedMemory values. -/
theorem c4_counterexample :
    parseExtractionResponse "[\x7b\"type\":\"Decision\"\x7d]".data =
      Except.ok [Json.obj [("type".data, Json.str "Decision".data)]] ∧
    parseGeminiResponse "[\x7b\"type\":\"Decision\"\x7d]".data =
      [Json.obj [("type".data, Json.str "Decision".data)]] ∧
    specValidExtractedMemory (Json.obj [("type".data, Json.str "Decision".data)]) =
      false :=
  ⟨rfl, rfl, rfl⟩

/-- C4 amended: neither extractor validates array elements: whenever the
model response parses as a JSON array, the whole array is returned
unchanged, including elements missing `content` or `importance`. -/
theorem c4_no_validation (s sub : List Char) (l : List Json) :
    (matchJsonArraySub (stripFences (trim s)) = some sub →
      parseJson sub = some (Json.arr l) →
      parseExtractionResponse s = Except.ok l) ∧
    (parseJson (stripFences (trim s)) = some (Json.arr l) →
      parseGeminiResponse s = l) := by
  constructor
  · intro h1 h2
    simp only [parseExtractionResponse, h1, h2]
  · intro h
    simp only [parseGeminiResponse, h]

/-- Witness for C4 at the concrete response `[1]`. -/
theorem c4_no_validation_witness :
    (matchJsonArraySub (stripFences (trim "[1]".data)) = some "[1]".data ∧
      parseJson "[1]".data = some (Json.arr [Json.num 1 0]) ∧
      parseExtractionResponse "[1]".data = Except.ok [Json.num 1 0]) ∧
    (parseJson (stripFences (trim "[1]".data)) = some (Json.arr [Json.num 1 0]) ∧
      parseGeminiResponse "[1]".data = [Json.num 1 0]) :=
  ⟨⟨rfl, rfl, (c4_no_validation "[1]".data "[1]".data [Json.num 1 0]).1 rfl rfl⟩,
   ⟨rfl, (c4_no_validation "[1]".data "[1]".data [Json.num 1 0]).2 rfl⟩⟩

/-! ## Helpers for the truncation claims -/

/-- A live-path session entry carrying a plain-string message. -/
def mkLiveMsg (role text : List Char) : LiveEntry :=
  ⟨"message".data,
   some (Json.obj [("role".data, Json.str role), ("content".data, Json.str text)])⟩

theorem trim_replicate (n : Nat) (c : Char) (h : isJsWs c = false) :
    trim (List.replicate (n + 1) c) = List.replicate (n + 1) c := by
  have h1 : (List.replicate (n + 1) c).dropWhile isJsWs = List.replicate (n + 1) c := by
    rw [List.replicate_succ, List.dropWhile_cons, h]
    simp
  unfold trim
  rw [h1, List.reverse_replicate, h1, List.reverse_replicate]

theorem liveUser_line (t : List Char) (h : trim t ≠ []) :
    liveProcessEntry (mkLiveMsg "user".data t) = some ("USER: ".data ++ t, true) := by
  have ht : t ≠ [] := by
    intro e
    exact h (by simp [e, trim, List.dropWhile])
  simp [liveProcessEntry, mkLiveMsg, Json.getField, jsTruthy, extractMsgText,
    List.find?, h, ht]

theorem liveAsst_line (t : List Char) (h : trim t ≠ []) :
    liveProcessEntry (mkLiveMsg "assistant".data t) =
      some ("ASSISTANT: ".data ++
        (if 2000 < t.length then t.take 2000 ++ "...".data else t), false) := by
  have ht : t ≠ [] := by
    intro e
    exact h (by simp [e, trim, List.dropWhile])
  simp [liveProcessEntry, mkLiveMsg, Json.getField, jsTruthy, extractMsgText,
    List.find?, h, ht]

/-- C5 counterexample: on the live path a USER entry of 5000 characters is
forwarded completely untruncated — the pushed line is `USER: ` followed by
all 5000 characters, not by the first 2000. -/
theorem c5_counterexample :
    buildLines [mkLiveMsg "user".data (List.replicate 5000 'a')] =
      ["USER: ".data ++ List.replicate 5000 'a'] ∧
    ("USER: ".data ++ List.replicate 5000 'a').drop 6 = List.replicate 5000 'a' ∧
    (List.replicate 5000 'a' : List Char).length ≠ 2000 := by
  have hne : (List.replicate 5000 'a' : List Char) ≠ [] := by
    intro e
    have := congrArg List.length e
    rw [List.length_replicate] at this
    simp at this
  have h : trim (List.replicate 5000 'a') ≠ [] := by
    rw [trim_replicate 4999 'a' (by decide)]
    exact hne
  refine ⟨?_, ?_, ?_⟩
  · rw [buildLines, liveLines, List.filterMap_cons, liveUser_line _ h]
    rfl
  · have h6 : ("USER: ".data).length = 6 := rfl
    rw [← h6, List.drop_left]
  · rw [List.length_replicate]
    decide

/-- C5 amended: on the batch path, every accepted entry is stored with text
`text.slice(0, 2000)` — for text longer than 2000 characters that is exactly
2000 characters and a prefix of the original, and text of at most 2000
characters passes through unchanged; on the live path only ASSISTANT
entries are truncated — to the first 2000 characters followed by `...` —
while USER entries are forwarded unchanged. -/
theorem c5_truncation (line t u v : List Char) (r : Role) :
    (lineCandidate line = some (r, t) →
      processLine line = some ⟨r, t.take 2000⟩) ∧
    (2000 < u.length →
      (u.take 2000).length = 2000 ∧ u.take 2000 ++ u.drop 2000 = u) ∧
    (u.length ≤ 2000 → u.take 2000 = u) ∧
    (trim v ≠ [] →
      liveProcessEntry (mkLiveMsg "user".data v) = some ("USER: ".data ++ v, true) ∧
      liveProcessEntry (mkLiveMsg "assistant".data v) =
        some ("ASSISTANT: ".data ++
          (if 2000 < v.length then v.take 2000 ++ "...".data else v), false)) := by
  refine ⟨?_, ?_, ?_, ?_⟩
  · intro hc
    simp [processLine, hc]
  · intro hlen
    refine ⟨?_, List.take_append_drop 2000 u⟩
    rw [List.length_take]
    omega
  · intro hlen
    exact List.take_of_length_le hlen
  · intro h
    exact ⟨liveUser_line v h, liveAsst_line v h⟩

/-- A transcript line whose user message carries the text `hello there`. -/
def shortUserLine : List Char :=
  "\x7b\"type\":\"message\",\"message\":\x7b\"role\":\"user\",\"content\":\"hello there\"\x7d\x7d".data

/-- Witness for C5: a concrete accepted line goes through the `slice(0,
2000)` push; the length facts are discharged at a 5000-character text (and a
2-character one); the live conjunct holds for the text `hi`. -/
theorem c5_truncation_witness :
    (lineCandidate shortUserLine = some (Role.user, "hello there".data) ∧
      processLine shortUserLine = some ⟨Role.user, "hello there".data.take 2000⟩) ∧
    (2000 < (List.replicate 5000 'a' : List Char).length ∧
      ((List.replicate 5000 'a' : List Char).take 2000).length = 2000) ∧
    ("hi".data.length ≤ 2000 ∧ "hi".data.take 2000 = "hi".data) ∧
    (trim "hi".data ≠ [] ∧
      liveProcessEntry (mkLiveMsg "user".data "hi".data) =
        some ("USER: ".data ++ "hi".data, true)) := by
  have h1 : lineCandidate shortUserLine = some (Role.user, "hello there".data) := by rfl
  have h2 : (2000 : Nat) < (List.replicate 5000 'a' : List Char).length := by
    rw [List.length_replicate]; decide
  have h3 : "hi".data.length ≤ 2000 := by decide
  have h4 : trim "hi".data ≠ [] := by decide
  exact ⟨⟨h1, (c5_truncation shortUserLine "hello there".data [] [] Role.user).1 h1⟩,
    ⟨h2, ((c5_truncation [] [] (List.replicate 5000 'a') [] Role.user).2.1 h2).1⟩,
    ⟨h3, (c5_truncation [] [] "hi".data [] Role.user).2.2.1 h3⟩,
    ⟨h4, ((c5_truncation [] [] [] "hi".data Role.user).2.2.2 h4).1⟩⟩

/-! ## Discovery lemmas -/

theorem mem_scanNodes_le (cutoff : Int) (d : List Char) (ns : List FsNode) :
    ∀ s : Session, s ∈ scanNodes cutoff d ns → cutoff ≤ s.mtime := by
  induction d, ns using scanNodes.induct cutoff with
  | case1 dirPath => intro s hs; simp [scanNodes] at hs
  | case2 dirPath name readable children rest ih1 ih2 =>
    intro s hs
    rw [scanNodes] at hs
    rcases List.mem_append.mp hs with h | h
    · by_cases hn : name ≠ "subagent-artifacts".data
      · rw [if_pos hn] at h
        by_cases hr : readable
        · rw [if_pos hr] at h
          exact ih1 s h
        · rw [if_neg hr] at h
          simp at h
      · rw [if_neg hn] at h
        simp at h
    · exact ih2 s h
  | case3 dirPath name mtime rest ih =>
    intro s hs
    rw [scanNodes] at hs
    rcases List.mem_append.mp hs with h | h
    · by_cases he : endsWith name ".jsonl".data
      · rw [if_pos he] at h
        by_cases hc : cutoff ≤ mtime
        · rw [if_pos hc] at h
          rcases List.mem_singleton.mp h with rfl
          exact hc
        · rw [if_neg hc] at h
          simp at h
      · rw [if_neg he] at h
        simp at h
    · exact ih s h

/-- C6 counterexample: with `now = 0` and a one-hour window, a `.jsonl` file
whose last-modified time lies 5000000 ms in the FUTURE (after `now`) is
returned by discovery — the scan only checks `mtimeMs >= cutoff` and has no
upper bound, contradicting the claimed `[now - window, now]` interval. -/
theorem c6_counterexample :
    findRecentSessions 0 "/s".data [FsNode.file "a.jsonl".data 5000000] 1 =
      [⟨"/s/a.jsonl".data, 5000000⟩] ∧ (0 : Int) < 5000000 := by
  constructor
  · rw [findRecentSessions, scanNodes, scanNodes]
    norm_num [endsWith, joinPath]
  · decide

/-- C6 amended: discovery returns `.jsonl` files with
`mtime ≥ now - N·3600000` and no upper bound (a file modified after `now`
is also returned), ordered most-recently-modified first; a directory named
`subagent-artifacts` and an unreadable directory are skipped while the scan
of their siblings continues. -/
theorem c6_discovery (now : Int) (base : List Char) (root : List FsNode)
    (hrs : Int) (name : List Char) (children rest : List FsNode) (r : Bool)
    (dirPath : List Char) (cut : Int) :
    (∀ s ∈ findRecentSessions now base root hrs,
      now - hrs * 60 * 60 * 1000 ≤ s.mtime) ∧
    (findRecentSessions now base root hrs).Pairwise (fun a b => b.mtime ≤ a.mtime) ∧
    scanNodes cut dirPath (FsNode.dir name false children :: rest) =
      scanNodes cut dirPath rest ∧
    scanNodes cut dirPath (FsNode.dir "subagent-artifacts".data r children :: rest) =
      scanNodes cut dirPath rest := by
  refine ⟨?_, ?_, ?_, ?_⟩
  · intro s hs
    rw [findRecentSessions] at hs
    exact mem_scanNodes_le _ _ _ s (List.mem_mergeSort.mp hs)
  · have hp : (findRecentSessions now base root hrs).Pairwise
        (fun a b => decide (b.mtime ≤ a.mtime) = true) := by
      rw [findRecentSessions]
      exact List.sorted_mergeSort
        (by intro a b c h1 h2; simp only [decide_eq_true_eq] at *; omega)
        (by intro a b; simp only [Bool.or_eq_true, decide_eq_true_eq]; omega) _
    exact hp.imp (fun h => of_decide_eq_true h)
  · rw [scanNodes]
    by_cases hn : name ≠ "subagent-artifacts".data
    · rw [if_pos hn, if_neg (by simp)]
      simp
    · rw [if_neg hn]
      simp
  · rw [scanNodes]
    simp

/-- Witness for C6 on a concrete tree: a file inside the window, one outside,
one future, an unreadable directory and the reserved directory. -/
theorem c6_discovery_witness :
    (∀ s ∈ findRecentSessions 0 "/s".data [FsNode.file "a.jsonl".data 5000000] 1,
      (0 : Int) - 1 * 60 * 60 * 1000 ≤ s.mtime) ∧
    (findRecentSessions 0 "/s".data
      [FsNode.file "a.jsonl".data 10, FsNode.file "b.jsonl".data 20] 1).Pairwise
        (fun a b => b.mtime ≤ a.mtime) ∧
    scanNodes 0 "/s".data
        [FsNode.dir "x".data false [FsNode.file "c.jsonl".data 7],
         FsNode.file "d.jsonl".data 9] =
      scanNodes 0 "/s".data [FsNode.file "d.jsonl".data 9] :=
  ⟨(c6_discovery 0 "/s".data [FsNode.file "a.jsonl".data 5000000] 1
      [] [] [] false [] 0).1,
   (c6_discovery 0 "/s".data
      [FsNode.file "a.jsonl".data 10, FsNode.file "b.jsonl".data 20] 1
      [] [] [] false [] 0).2.1,
   (c6_discovery 0 "/s".data [] 1 "x".data [FsNode.file "c.jsonl".data 7]
      [FsNode.file "d.jsonl".data 9] false "/s".data 0).2.2.1⟩

/-! ## Store-loop lemmas and concrete transcripts -/

theorem storeLoop_go_sum (ok : Nat → Bool) (ms : List Json) :
    ∀ (i st f : Nat), (storeLoop.go ok i st f ms).1 + (storeLoop.go ok i st f ms).2 =
      st + f + ms.length := by
  induction ms with
  | nil => intro i st f; simp [storeLoop.go]
  | cons m rest ih =>
    intro i st f
    rw [storeLoop.go]
    by_cases h : ok i
    · rw [if_pos h, ih, List.length_cons]
      omega
    · rw [if_neg h, ih, List.length_cons]
      omega

theorem storeExtractedMemories_go_sum (ok : Nat → Bool) (ms : List Json) :
    ∀ (i st f : Nat),
      (storeExtractedMemories.go ok i st f ms).1 +
        (storeExtractedMemories.go ok i st f ms).2 = st + f + ms.length := by
  induction ms with
  | nil => intro i st f; simp [storeExtractedMemories.go]
  | cons m rest ih =>
    intro i st f
    rw [storeExtractedMemories.go]
    by_cases h : ok i
    · rw [if_pos h, ih, List.length_cons]
      omega
    · rw [if_neg h, ih, List.length_cons]
      omega

/-- A transcript line whose user message carries the text `fix the bug`. -/
def userLine : List Char :=
  "\x7b\"type\":\"message\",\"message\":\x7b\"role\":\"user\",\"content\":\"fix the bug\"\x7d\x7d".data

/-- A transcript line whose assistant message carries the text `done`. -/
def asstLine : List Char :=
  "\x7b\"type\":\"message\",\"message\":\x7b\"role\":\"assistant\",\"content\":\"done\"\x7d\x7d".data

/-- A transcript with three user turns and one assistant turn. -/
def threeTurnContent : List Char :=
  userLine ++ '\n' :: asstLine ++ '\n' :: userLine ++ '\n' :: userLine ++ ['\n']

/-- A transcript with a single user turn. -/
def oneTurnContent : List Char :=
  userLine ++ ['\n']

/-- C7: per-memory store isolation.  In both store loops every memory gets
its own call and `stored + failed` always equals the number of candidate
memories; concretely, for 3 memories whose 2nd store call fails, the result
is `storedCount = 2, failedCount = 1`, and `processSession` resolves (no
exception escapes) with exactly that result. -/
theorem c7_store_isolation (ok : Nat → Bool) (ms : List Json) :
    ((storeLoop ok ms).1 + (storeLoop ok ms).2 = ms.length ∧
     (storeExtractedMemories ok ms).1 + (storeExtractedMemories ok ms).2 = ms.length) ∧
    storeLoop (fun i => decide (i ≠ 1))
      [Json.str "m1".data, Json.str "m2".data, Json.str "m3".data] = (2, 1) ∧
    storeExtractedMemories (fun i => decide (i ≠ 1))
      [Json.str "m1".data, Json.str "m2".data, Json.str "m3".data] = (2, 1) ∧
    processSession false (fun _ => CallOutcome.output "[1,2,3]".data)
      (fun i => decide (i ≠ 1)) threeTurnContent =
      Except.ok ⟨false, 3, 2, 1, 3⟩ := by
  refine ⟨⟨?_, ?_⟩, rfl, rfl, rfl⟩
  · have := storeLoop_go_sum ok ms 0 0 0
    simpa [storeLoop] using this
  · have := storeExtractedMemories_go_sum ok ms 0 0 0
    simpa [storeExtractedMemories] using this

/-- C8: a dry run never mutates the ledger and never issues a store call:
`markSessionProcessed` is the identity, any resolved `processSession` result
reports zero store calls (and zero stored/failed), and a `mainStep` leaves
the ledger untouched — whatever extraction returned. -/
theorem c8_dry_run (L p : List Char) (call : List Char → CallOutcome)
    (storeOk : Nat → Bool) (content : List Char)
    (storeOkS : List Char → Nat → Bool) (fs : List Char → List Char)
    (st : List Char × Totals) (s : Session) :
    markSessionProcessed true L p = L ∧
    (∀ r, processSession true call storeOk content = Except.ok r →
      r.storeCalls = 0 ∧ r.stored = 0 ∧ r.failed = 0) ∧
    (mainStep true call storeOkS fs st s).1 = st.1 := by
  refine ⟨rfl, ?_, ?_⟩
  · intro r hr
    simp only [processSession] at hr
    by_cases h3 : (parseSession content).2 < 3
    · rw [if_pos h3] at hr
      cases Except.ok.inj hr
      exact ⟨rfl, rfl, rfl⟩
    · rw [if_neg h3] at hr
      rcases hx : extractMemoriesRun call (formatConversation (parseSession content).1)
        with e | ms
      · rw [hx] at hr
        exact absurd hr (by simp)
      · rw [hx] at hr
        by_cases hl : ms.length = 0
        · simp only [hl, eq_self_iff_true, if_true] at hr
          cases Except.ok.inj hr
          exact ⟨rfl, rfl, rfl⟩
        · simp only [if_neg hl, if_true] at hr
          cases Except.ok.inj hr
          exact ⟨rfl, rfl, rfl⟩
  · rw [mainStep]
    split
    · split
      · rfl
      · rfl
    · rfl

/-- Witness for C8: extraction returns three memories, yet the dry-run
result records zero store calls. -/
theorem c8_dry_run_witness :
    processSession true (fun _ => CallOutcome.output "[1,2,3]".data)
        (fun _ => true) threeTurnContent =
      Except.ok ⟨false, 3, 0, 0, 0⟩ ∧
    (⟨false, 3, 0, 0, 0⟩ : PSResult).storeCalls = 0 ∧
    (⟨false, 3, 0, 0, 0⟩ : PSResult).stored = 0 ∧
    (⟨false, 3, 0, 0, 0⟩ : PSResult).failed = 0 :=
  ⟨rfl,
    (c8_dry_run [] [] (fun _ => CallOutcome.output "[1,2,3]".data) (fun _ => true)
      threeTurnContent (fun _ _ => true) (fun _ => []) ([], ⟨0, 0⟩) ⟨[], 0⟩).2.1
      ⟨false, 3, 0, 0, 0⟩ rfl⟩

/-- C9: a session whose processing throws (for example an
`ExtractionTimeout`) is caught by the orchestrator loop: the ledger and
totals are unchanged (the session is not marked, so it stays eligible for
retry) and the run continues with the remaining sessions exactly as if the
errored one were absent. -/
theorem c9_error_continue (dr : Bool) (call : List Char → CallOutcome)
    (storeOk : List Char → Nat → Bool) (fs : List Char → List Char)
    (st : List Char × Totals) (s : Session) (rest : List Session) (e : List Char)
    (he : processSession dr call (storeOk s.path) (fs s.path) = Except.error e) :
    mainStep dr call storeOk fs st s = st ∧
    runSessions dr call storeOk fs st (s :: rest) =
      runSessions dr call storeOk fs st rest := by
  have h1 : mainStep dr call storeOk fs st s = st := by
    simp only [mainStep, he]
  exact ⟨h1, by rw [runSessions, List.foldl_cons, h1]; rfl⟩

/-- Witness for C9: a concrete session whose extraction times out; the
errored session leaves the ledger and totals unchanged and the loop result
equals the run on the remaining sessions alone. -/
theorem c9_error_continue_witness :
    processSession false (fun _ => CallOutcome.timeout) ((fun _ _ => true) "p".data)
        ((fun _ => threeTurnContent) "p".data) =
      Except.error "Extraction timed out after 90s".data ∧
    mainStep false (fun _ => CallOutcome.timeout) (fun _ _ => true)
        (fun _ => threeTurnContent) ("q\n".data, ⟨0, 0⟩) ⟨"p".data, 0⟩ =
      ("q\n".data, ⟨0, 0⟩) :=
  ⟨rfl,
    (c9_error_continue false (fun _ => CallOutcome.timeout) (fun _ _ => true)
      (fun _ => threeTurnContent) ("q\n".data, ⟨0, 0⟩) ⟨"p".data, 0⟩ []
      "Extraction timed out after 90s".data rfl).1⟩

/-- C10: in a non-dry-run batch run a session is marked in the ledger
exactly when `processSession` resolves without throwing and was not skipped
by the turn-count gate: a too-short session (fewer than 3 user turns)
changes neither ledger nor totals; a gated-through session whose extraction
yields zero memories IS marked (`path + "\n"` appended); a resolved
un-skipped result always appends exactly that line; a changed ledger implies
an un-skipped resolution; and an unmarked session inside the window is kept
by the next run's ledger filter (re-examined). -/
theorem c10_marking (call : List Char → CallOutcome)
    (storeOk : List Char → Nat → Bool) (fs : List Char → List Char)
    (L : List Char) (tot : Totals) (s : Session) :
    ((parseSession (fs s.path)).2 < 3 →
      mainStep false call storeOk fs (L, tot) s = (L, tot)) ∧
    (3 ≤ (parseSession (fs s.path)).2 →
      extractMemoriesRun call (formatConversation (parseSession (fs s.path)).1) =
        Except.ok [] →
      (mainStep false call storeOk fs (L, tot) s).1 = L ++ s.path ++ ['\n']) ∧
    (∀ r, processSession false call (storeOk s.path) (fs s.path) = Except.ok r →
      r.skipped = false →
      (mainStep false call storeOk fs (L, tot) s).1 = L ++ s.path ++ ['\n']) ∧
    ((mainStep false call storeOk fs (L, tot) s).1 ≠ L →
      ∃ r, processSession false call (storeOk s.path) (fs s.path) = Except.ok r ∧
        r.skipped = false) ∧
    (∀ sessions : List Session, s ∈ sessions →
      s.path ∉ getProcessedSessions L → s ∈ filterUnprocessed L sessions) := by
  refine ⟨?_, ?_, ?_, ?_, ?_⟩
  · intro h
    have hp : processSession false call (storeOk s.path) (fs s.path) =
        Except.ok ⟨true, 0, 0, 0, 0⟩ := by
      rw [processSession, if_pos h]
    rw [mainStep, hp]
    simp
  · intro h he
    have hp : processSession false call (storeOk s.path) (fs s.path) =
        Except.ok ⟨false, 0, 0, 0, 0⟩ := by
      rw [processSession, if_neg (by omega)]
      simp only [he, List.length_nil, eq_self_iff_true, if_true]
    rw [mainStep, hp]
    simp [markSessionProcessed]
  · intro r hr hsk
    simp [mainStep, hr, hsk, markSessionProcessed]
  · intro hne
    rw [mainStep] at hne
    rcases hp : processSession false call (storeOk s.path) (fs s.path) with e | r
    · rw [hp] at hne
      exact absurd rfl hne
    · rw [hp] at hne
      refine ⟨r, rfl, ?_⟩
      by_cases hsk : r.skipped = false
      · exact hsk
      · simp only [if_neg hsk] at hne
        exact absurd rfl hne
  · intro sessions hmem hnot
    rw [filterUnprocessed, List.mem_filter]
    exact ⟨hmem, decide_eq_true hnot⟩

/-- Witness for C10: a one-turn session leaves everything unchanged; a
three-turn session with an empty extraction is marked; an unprocessed path
survives the ledger filter. -/
theorem c10_marking_witness :
    ((parseSession ((fun _ => oneTurnContent) "p".data)).2 < 3 ∧
      mainStep false (fun _ => CallOutcome.output "[]".data) (fun _ _ => true)
        (fun _ => oneTurnContent) ("q\n".data, ⟨0, 0⟩) ⟨"p".data, 0⟩ =
        ("q\n".data, ⟨0, 0⟩)) ∧
    (3 ≤ (parseSession ((fun _ => threeTurnContent) "p".data)).2 ∧
      extractMemoriesRun (fun _ => CallOutcome.output "[]".data)
        (formatConversation (parseSession ((fun _ => threeTurnContent) "p".data)).1) =
        Except.ok [] ∧
      (mainStep false (fun _ => CallOutcome.output "[]".data) (fun _ _ => true)
        (fun _ => threeTurnContent) ("q\n".data, ⟨0, 0⟩) ⟨"p".data, 0⟩).1 =
        "q\n".data ++ "p".data ++ ['\n']) := by
  refine ⟨⟨by decide, ?_⟩, ⟨by decide, rfl, ?_⟩⟩
  · exact (c10_marking (fun _ => CallOutcome.output "[]".data) (fun _ _ => true)
      (fun _ => oneTurnContent) "q\n".data ⟨0, 0⟩ ⟨"p".data, 0⟩).1 (by decide)
  · exact (c10_marking (fun _ => CallOutcome.output "[]".data) (fun _ _ => true)
      (fun _ => threeTurnContent) "q\n".data ⟨0, 0⟩ ⟨"p".data, 0⟩).2.1 (by decide) rfl

end AutoMem
